import Mathlib

/-!
Verification of the FEHB plan cost-calculation engine
(`src/calculator/cost_engine.py` and `src/utils/service_type_mapper.py`).

Currency amounts and quantities are modelled as rationals; Python dicts
are modelled as association lists in insertion order; fallible lookups
return `Option`.  Each Python function of the engine is embedded as a
Lean definition of the same (snake_case) name.
-/

/-! ## String utilities (Python `str` methods used by the source) -/

/-- Python `str.lower()` restricted to ASCII, as used on benefit-type tags. -/
def strLower (s : String) : String :=
  String.mk (s.toList.map Char.toLower)

/-- Python `str.rstrip('s')`: remove every trailing `'s'` character. -/
def rstripS (s : String) : String :=
  String.mk ((s.toList.reverse.dropWhile (fun c => c = 's')).reverse)

/-- Auxiliary recursion for `replaceAll`, scanning left to right with fuel. -/
def replaceAllAux (pat rep : List Char) : Nat → List Char → List Char
  | 0, s => s
  | _ + 1, [] => []
  | fuel + 1, c :: rest =>
    if pat.isPrefixOf (c :: rest) then
      rep ++ replaceAllAux pat rep fuel (List.drop (pat.length - 1) rest)
    else
      c :: replaceAllAux pat rep fuel rest

/-- Python `str.replace(pat, rep)`: replace every non-overlapping occurrence,
scanning left to right. -/
def replaceAll (s pat rep : String) : String :=
  String.mk (replaceAllAux pat.toList rep.toList (s.toList.length + 1) s.toList)

/-- Python `str.endswith(suf)`. -/
def endsWithStr (s suf : String) : Bool :=
  suf.toList.isSuffixOf s.toList

/-- Python `pat in s` (substring containment). -/
def containsStr (s pat : String) : Bool :=
  s.toList.tails.any (fun t => pat.toList.isPrefixOf t)

/-! ## Data model -/

/-- A benefit rule dict `{"type": ..., "value": ...}` from plan data. -/
structure BenefitRule where
  type : String
  value : ℚ
deriving DecidableEq

/-- The mutable deductible-tracking state of a `CostCalculator` instance
(`self.deductible_remaining`, `self.deductible_paid`). -/
structure CalcState where
  deductible_remaining : ℚ
  deductible_paid : ℚ
deriving DecidableEq

/-! ## `CostCalculator.apply_benefit_rule` -/

/-- Embedding of `CostCalculator.apply_benefit_rule`: returns the cost for
one service type together with the updated deductible state.  Mirrors the
source exactly: early return on missing rule, non-positive quantity or
market cost; copay branch; coinsurance branch with deductible split;
unknown type treated as zero cost. -/
def apply_benefit_rule (benefit_rule : Option BenefitRule)
    (market_cost quantity : ℚ) (st : CalcState) : ℚ × CalcState :=
  match benefit_rule with
  | none => (0, st)
  | some rule =>
    if quantity ≤ 0 ∨ market_cost ≤ 0 then (0, st)
    else
      let benefit_type := strLower rule.type
      let benefit_value := rule.value
      if benefit_type = "copay" then
        (benefit_value * quantity, st)
      else if benefit_type = "coinsurance" then
        let total_market_cost := market_cost * quantity
        if 0 < st.deductible_remaining then
          let deductible_portion := min total_market_cost st.deductible_remaining
          let remaining_market_cost := total_market_cost - deductible_portion
          let coinsurance_portion := remaining_market_cost * benefit_value
          (deductible_portion + coinsurance_portion,
            ⟨st.deductible_remaining - deductible_portion,
             st.deductible_paid + deductible_portion⟩)
        else
          (total_market_cost * benefit_value, st)
      else
        (0, st)

/-! ## Claims about `apply_benefit_rule` alone -/

/-- C1: coinsurance split.  For a coinsurance rule with unit price `p > 0`,
quantity `q > 0` and current `deductible_remaining = d ≥ 0` (the state
invariant of the engine), with `market = p * q`: if `market ≤ d` the cost is
`market` and the new remaining deductible is `d - market`; if `market > d`
the cost is `d + (market - d) * rate` and the new remaining deductible is
`0`; and `deductible_paid` grows by exactly the amount `deductible_remaining`
shrank. -/
theorem C1_coinsurance_split (rule : BenefitRule) (p q d paid : ℚ)
    (htype : strLower rule.type = "coinsurance")
    (hp : 0 < p) (hq : 0 < q) (hd : 0 ≤ d) :
    (p * q ≤ d →
      (apply_benefit_rule (some rule) p q ⟨d, paid⟩).1 = p * q ∧
      (apply_benefit_rule (some rule) p q ⟨d, paid⟩).2.deductible_remaining = d - p * q) ∧
    (d < p * q →
      (apply_benefit_rule (some rule) p q ⟨d, paid⟩).1 = d + (p * q - d) * rule.value ∧
      (apply_benefit_rule (some rule) p q ⟨d, paid⟩).2.deductible_remaining = 0) ∧
    (apply_benefit_rule (some rule) p q ⟨d, paid⟩).2.deductible_paid - paid =
      d - (apply_benefit_rule (some rule) p q ⟨d, paid⟩).2.deductible_remaining := by
  have hne : ¬ (q ≤ 0 ∨ p ≤ 0) := by push_neg; exact ⟨hq, hp⟩
  have hco : (("coinsurance" : String) = "copay") = False := eq_false (by decide)
  simp only [apply_benefit_rule, if_neg hne, htype, hco, if_false, if_true]
  by_cases hd0 : 0 < d
  · rw [if_pos hd0]
    refine ⟨?_, ?_, ?_⟩
    · intro hle
      rw [min_eq_left hle]
      constructor <;> ring
    · intro hlt
      rw [min_eq_right (le_of_lt hlt)]
      constructor <;> ring
    · ring
  · have hdz : d = 0 := le_antisymm (not_lt.mp hd0) hd
    rw [if_neg hd0]
    refine ⟨?_, ?_, ?_⟩
    · intro hle
      exact absurd (lt_of_lt_of_le (mul_pos hp hq) hle) (by simp [hdz])
    · intro _
      subst hdz
      constructor <;> ring
    · subst hdz
      ring

/-- C1 witness: concrete instance with `p = 200`, `q = 10`, `d = 500`,
rate `1/5`, exercising the theorem at a coinsurance rule. -/
theorem C1_coinsurance_split_witness :
    strLower (BenefitRule.mk "coinsurance" (1/5)).type = "coinsurance" ∧
    (0 : ℚ) < 200 ∧ (0 : ℚ) < 10 ∧ (0 : ℚ) ≤ 500 ∧
    ((500 : ℚ) < 200 * 10 →
      (apply_benefit_rule (some (BenefitRule.mk "coinsurance" (1/5))) 200 10
          ⟨500, 0⟩).1 = 500 + (200 * 10 - 500) * (BenefitRule.mk "coinsurance" (1/5)).value ∧
      (apply_benefit_rule (some (BenefitRule.mk "coinsurance" (1/5))) 200 10
          ⟨500, 0⟩).2.deductible_remaining = 0) :=
  ⟨by decide, by norm_num, by norm_num, by norm_num,
    (C1_coinsurance_split (BenefitRule.mk "coinsurance" (1/5)) 200 10 500 0
      (by decide) (by norm_num) (by norm_num) (by norm_num)).2.1⟩

/-- C2: copay independence.  A copay rule with amount `a`, quantity `q > 0`
and positive unit price charges exactly `a * q` and leaves the whole
deductible state (both `deductible_remaining` and `deductible_paid`)
unchanged, whatever that state was. -/
theorem C2_copay_independence (t : String) (a p q : ℚ) (st : CalcState)
    (htype : strLower t = "copay") (hq : 0 < q) (hp : 0 < p) :
    apply_benefit_rule (some (BenefitRule.mk t a)) p q st = (a * q, st) := by
  have hne : ¬ (q ≤ 0 ∨ p ≤ 0) := by push_neg; exact ⟨hq, hp⟩
  simp only [apply_benefit_rule, if_neg hne, htype, if_true]

/-- C2 witness: copay of 20 for 5 visits at market price 200 charges 100
and leaves a state with 1000 of deductible remaining untouched. -/
theorem C2_copay_independence_witness :
    strLower "copay" = "copay" ∧ (0 : ℚ) < 5 ∧ (0 : ℚ) < 200 ∧
    apply_benefit_rule (some (BenefitRule.mk "copay" 20)) 200 5 ⟨1000, 0⟩ =
      (20 * 5, ⟨1000, 0⟩) :=
  ⟨by decide, by norm_num, by norm_num,
    C2_copay_independence "copay" 20 200 5 ⟨1000, 0⟩ (by decide) (by norm_num) (by norm_num)⟩

/-- C8: a resolved rule whose lowercased type tag is neither `"copay"` nor
`"coinsurance"` yields cost `0` and leaves the deductible state unchanged
(no exception is possible: the embedding, like the source branch, is a
total function returning the zero-cost default). -/
theorem C8_unknown_type_zero (rule : BenefitRule) (p q : ℚ) (st : CalcState)
    (hc : ¬ strLower rule.type = "copay")
    (hco : ¬ strLower rule.type = "coinsurance") :
    apply_benefit_rule (some rule) p q st = (0, st) := by
  by_cases hne : q ≤ 0 ∨ p ≤ 0
  · simp only [apply_benefit_rule, if_pos hne]
  · simp only [apply_benefit_rule, if_neg hne, if_neg hc, if_neg hco]

/-- C8 witness: a rule tagged `"percentage"` charges nothing and does not
touch a state with 300 remaining / 200 paid. -/
theorem C8_unknown_type_zero_witness :
    ¬ strLower (BenefitRule.mk "percentage" (1/2)).type = "copay" ∧
    ¬ strLower (BenefitRule.mk "percentage" (1/2)).type = "coinsurance" ∧
    apply_benefit_rule (some (BenefitRule.mk "percentage" (1/2))) 150 4 ⟨300, 200⟩ =
      (0, ⟨300, 200⟩) :=
  ⟨by decide, by decide,
    C8_unknown_type_zero (BenefitRule.mk "percentage" (1/2)) 150 4 ⟨300, 200⟩
      (by decide) (by decide)⟩

/-! ## Benefit rule resolution (`CostCalculator._find_benefit_rule`) -/

/-- The therapy fallback table hard-coded inside `_find_benefit_rule`. -/
def therapy_fallbacks : List (String × List String) :=
  [("speech_therapy_visits",
     ["speech_therapy", "therapy_services", "rehabilitation_services",
      "habilitation_services"]),
   ("occupational_therapy_visits",
     ["occupational_therapy", "ot_therapy", "therapy_services",
      "rehabilitation_services", "habilitation_services"]),
   ("physical_therapy_visits",
     ["physical_therapy", "pt_therapy", "therapy_services",
      "rehabilitation_services", "habilitation_services"])]

/-- Embedding of `CostCalculator._find_benefit_rule`: exact key lookup, then
lookup with `_visits` removed, then the therapy fallback chain, then the
generic/specialty drug fallbacks.  Lookups are literal string comparisons,
exactly as the Python `in`/`[]` dict operations on `benefit_rules`. -/
def find_benefit_rule (usage_key : String)
    (benefit_rules : List (String × BenefitRule)) : Option BenefitRule :=
  match List.lookup usage_key benefit_rules with
  | some r => some r
  | none =>
    match List.lookup (replaceAll usage_key "_visits" "") benefit_rules with
    | some r => some r
    | none =>
      match (List.lookup usage_key therapy_fallbacks).bind
          (fun fbs => fbs.findSome? (fun fk => List.lookup fk benefit_rules)) with
      | some r => some r
      | none =>
        match (if containsStr usage_key "_generics" then
                List.lookup "generic_drug" benefit_rules else none) with
        | some r => some r
        | none =>
          if containsStr usage_key "_specialty" then
            List.lookup "specialty_drug" benefit_rules
          else none

/-! ## `CostCalculator.calculate_usage_cost` -/

/-- The inline usage-key to cost-key transform at the top of the service
loop in `calculate_usage_cost` (lines 168-174): `rstrip('s')`, then if the
result ends in `_monthly`, replace `_monthly` by `_cost` and flag the
quantity for the 12x annualization. -/
def usage_cost_key (usage_key : String) : String × Bool :=
  let ck := rstripS usage_key
  if endsWithStr ck "_monthly" then (replaceAll ck "_monthly" "_cost", true)
  else (ck, false)

/-- One iteration of the service loop of `calculate_usage_cost`: returns the
usage-breakdown entry this service contributes (`none` when the service is
skipped for non-positive quantity or missing market cost) and the updated
deductible state. -/
def process_service (standard_costs : List (String × ℚ))
    (benefit_rules : List (String × BenefitRule)) (st : CalcState)
    (entry : String × ℚ) : Option (String × ℚ) × CalcState :=
  if entry.2 ≤ 0 then (none, st)
  else
    let ck := usage_cost_key entry.1
    let quantity := if ck.2 then entry.2 * 12 else entry.2
    let market_cost := (List.lookup ck.1 standard_costs).getD 0
    if market_cost ≤ 0 then (none, st)
    else
      match find_benefit_rule entry.1 benefit_rules with
      | none => (some (entry.1, 0), st)
      | some rule =>
        let res := apply_benefit_rule (some rule) market_cost quantity st
        (some (entry.1, res.1), res.2)

/-- Embedding of `CostCalculator.calculate_usage_cost`: fold the service
loop over the usage profile in insertion order, returning the usage
breakdown (an ordered key/cost list) and the final deductible state. -/
def calculate_usage_cost (standard_costs : List (String × ℚ))
    (benefit_rules : List (String × BenefitRule)) :
    CalcState → List (String × ℚ) → List (String × ℚ) × CalcState
  | st, [] => ([], st)
  | st, e :: rest =>
    let pr := process_service standard_costs benefit_rules st e
    let tl := calculate_usage_cost standard_costs benefit_rules pr.2 rest
    ((match pr.1 with
      | none => tl.1
      | some b => b :: tl.1), tl.2)

/-! ## Rounding, OOP cap and `calculate_total_cost` -/

/-- Round to nearest integer, ties to even (the rounding used by Python's
builtin `round`). -/
def roundHalfEven (x : ℚ) : ℤ :=
  let f := x.floor
  if x - f < 1/2 then f
  else if 1/2 < x - f then f + 1
  else if f % 2 = 0 then f else f + 1

/-- Python `round(x, 2)` on exact decimal data: round half to even at two
decimal places. -/
def round2 (x : ℚ) : ℚ :=
  (roundHalfEven (x * 100) : ℚ) / 100

/-- A plan record as consumed by the calculator (`plan_data`).  A missing
`oop_max` is Python's `float('inf')` default, modelled as `none`. -/
structure PlanData where
  biweekly_premium : ℚ
  annual_deductible : ℚ
  oop_max : Option ℚ
  benefit_rules : List (String × BenefitRule)

/-- User needs: the usage profile and market price table, both in insertion
order. -/
structure UserNeeds where
  usage_profile : List (String × ℚ)
  standard_costs : List (String × ℚ)

/-- Embedding of `CostCalculator.calculate_premium_cost`: 26 pay periods. -/
def calculate_premium_cost (plan : PlanData) : ℚ :=
  plan.biweekly_premium * 26

/-- Embedding of `CostCalculator.apply_oop_cap`. -/
def apply_oop_cap (plan : PlanData) (variable_costs : ℚ) : ℚ :=
  match plan.oop_max with
  | none => variable_costs
  | some oop_max => if oop_max < variable_costs then oop_max else variable_costs

/-- The result dict returned by `calculate_total_cost`. -/
structure CostResult where
  total_annual_cost : ℚ
  premium_cost : ℚ
  medical_drug_spend : ℚ
  deductible_paid : ℚ
  usage_breakdown : List (String × ℚ)
  variable_cost_raw : ℚ
deriving DecidableEq

/-- Embedding of `CostCalculator.calculate_total_cost`: reset the deductible
state, compute premium and usage costs, cap the raw variable cost at the
OOP maximum, and round every currency output to 2 decimal places at the
result boundary. -/
def calculate_total_cost (user_needs : UserNeeds) (plan : PlanData) : CostResult :=
  let st0 : CalcState := ⟨plan.annual_deductible, 0⟩
  let premium_cost := calculate_premium_cost plan
  let run := calculate_usage_cost user_needs.standard_costs plan.benefit_rules
    st0 user_needs.usage_profile
  let variable_cost_raw := (run.1.map Prod.snd).sum
  let variable_cost_capped := apply_oop_cap plan variable_cost_raw
  let total_annual_cost := premium_cost + variable_cost_capped
  { total_annual_cost := round2 total_annual_cost
    premium_cost := round2 premium_cost
    medical_drug_spend := round2 variable_cost_capped
    deductible_paid := round2 run.2.deductible_paid
    usage_breakdown := run.1.map (fun b => (b.1, round2 b.2))
    variable_cost_raw := round2 variable_cost_raw }

/-! ## `src/utils/service_type_mapper.py` -/

/-- Embedding of `normalize_benefit_key`: lowercase, spaces and hyphens to
underscores, then drop every character that is not alphanumeric or an
underscore. -/
def normalize_benefit_key (benefit_key : String) : String :=
  let normalized := replaceAll (replaceAll (strLower benefit_key) " " "_") "-" "_"
  String.mk (normalized.toList.filter (fun c => c.isAlphanum || c = '_'))

/-- The module-level `ALL_SERVICE_MAPPINGS` table (the merge of
`SERVICE_TYPE_MAPPING` and `THERAPY_BENEFIT_MAPPING`). -/
def ALL_SERVICE_MAPPINGS : List (String × List String) :=
  [("primary_care_visits",
     ["primary_care", "primary_care_visit", "pcp_visit", "office_visit_primary"]),
   ("specialist_visits",
     ["specialist", "specialist_visit", "specialty_care", "office_visit_specialist"]),
   ("er_visits",
     ["emergency_room", "er", "emergency_services", "emergency_care"]),
   ("tier_1_generics_monthly",
     ["tier_1", "tier_1_generic", "generic_drug", "tier1_rx"]),
   ("tier_4_specialty_monthly",
     ["tier_4", "tier_4_specialty", "specialty_drug", "tier4_rx"]),
   ("inpatient_surgeries",
     ["inpatient_hospital", "hospital_stay", "inpatient_care", "hospitalization"]),
   ("speech_therapy_visits",
     ["speech_therapy", "speech_language_therapy", "therapy_services",
      "rehabilitation_services", "habilitation_services"]),
   ("occupational_therapy_visits",
     ["occupational_therapy", "ot_therapy", "therapy_services",
      "rehabilitation_services", "habilitation_services"])]

/-- Embedding of `find_matching_benefit`: normalize all plan benefit keys
(later duplicates of a normalized form win, as in the Python dict
comprehension, hence the `reverse`), try an exact normalized match of the
usage key, then the `ALL_SERVICE_MAPPINGS` fallback alternatives in order.
Returns the matching original plan key. -/
def find_matching_benefit (usage_type : String) (plan_benefit_keys : List String)
    (use_fallback : Bool) : Option String :=
  match plan_benefit_keys.reverse.find?
      (fun k => normalize_benefit_key k == normalize_benefit_key usage_type) with
  | some k => some k
  | none =>
    if use_fallback then
      (List.lookup usage_type ALL_SERVICE_MAPPINGS).bind
        (fun alts => alts.findSome? (fun alt =>
          plan_benefit_keys.reverse.find?
            (fun k => normalize_benefit_key k == normalize_benefit_key alt)))
    else none

/-- Embedding of `map_usage_to_standard_cost_key` from the service type
mapper utility: the documented usage-key to cost-key convention. -/
def map_usage_to_standard_cost_key (usage_key : String) : String :=
  if endsWithStr usage_key "_monthly" then
    let base := replaceAll usage_key "_monthly" ""
    let base2 := if endsWithStr base "_generics" then
      replaceAll base "_generics" "_generic" else base
    base2 ++ "_cost"
  else if endsWithStr usage_key "_visits" then
    replaceAll usage_key "_visits" "" ++ "_visit"
  else if endsWithStr usage_key "_surgeries" then
    replaceAll usage_key "_surgeries" "" ++ "_surgery"
  else usage_key

/-! ## Helper lemmas on lookups and suffixes -/

/-- A successful assoc-list lookup returns a pair that is in the list. -/
lemma lookup_mem {α β : Type} [BEq α] [LawfulBEq α] {k : α} {l : List (α × β)} {b : β}
    (h : List.lookup k l = some b) : (k, b) ∈ l := by
  obtain ⟨l₁, l₂, rfl, -⟩ := List.lookup_eq_some_iff.mp h
  simp

/-- Keys ending in `_monthly` end in a letter other than `s`, so Python's
`rstrip('s')` leaves them unchanged. -/
lemma rstripS_monthly (k : String) (h : endsWithStr k "_monthly" = true) :
    rstripS k = k := by
  have hsuf : "_monthly".toList <:+ k.toList := by
    unfold endsWithStr at h
    exact List.isSuffixOf_iff_suffix.mp h
  obtain ⟨t, ht⟩ := hsuf
  unfold rstripS
  rw [← ht]
  have : ((t ++ "_monthly".toList).reverse.dropWhile (fun c => c = 's')).reverse
      = t ++ "_monthly".toList := by
    rw [show "_monthly".toList = ['_', 'm', 'o', 'n', 't', 'h', 'l', 'y'] from rfl]
    rw [List.reverse_append]
    rw [show (['_', 'm', 'o', 'n', 't', 'h', 'l', 'y'] : List Char).reverse
        = ['y', 'l', 'h', 't', 'n', 'o', 'm', '_'] from rfl]
    rw [show (['y', 'l', 'h', 't', 'n', 'o', 'm', '_'] : List Char) ++ t.reverse
        = 'y' :: (['l', 'h', 't', 'n', 'o', 'm', '_'] ++ t.reverse) from rfl]
    rw [List.dropWhile_cons]
    simp
  rw [this, ht]
  rfl

/-! ## C7: usage-key to cost-key transforms -/

/-- C7: the cost-key actually used by the engine to look up the market price
diverges from the documented suffix transform of the mapper utility: the
engine turns `tier_1_generics_monthly` into `tier_1_generics_cost` (not the
claimed `tier_1_generic_cost` that `map_usage_to_standard_cost_key`
produces and the price table uses), and turns `inpatient_surgeries` into
`inpatient_surgerie` (not a key ending `_surgery`). -/
theorem C7_cost_key_divergence :
    (usage_cost_key "tier_1_generics_monthly").1 = "tier_1_generics_cost" ∧
    map_usage_to_standard_cost_key "tier_1_generics_monthly" = "tier_1_generic_cost" ∧
    (usage_cost_key "inpatient_surgeries").1 = "inpatient_surgerie" ∧
    map_usage_to_standard_cost_key "inpatient_surgeries" = "inpatient_surgery" := by
  refine ⟨?_, ?_, ?_, ?_⟩ <;> decide

/-! ## C6: key normalization in benefit resolution -/

/-- C6 counterexample: a plan rule key differing from the usage key only in
case, spaces and hyphens is not found by the engine's resolver
`_find_benefit_rule` (literal dict lookups), although the two keys
normalize identically and the standalone utility `find_matching_benefit`
does return it from its normalized exact-match step. -/
theorem C6_counterexample :
    find_benefit_rule "primary_care_visits"
        [("Primary-Care Visits", BenefitRule.mk "copay" 20)] = none ∧
    normalize_benefit_key "Primary-Care Visits" =
      normalize_benefit_key "primary_care_visits" ∧
    find_matching_benefit "primary_care_visits" ["Primary-Care Visits"] true =
      some "Primary-Care Visits" := by
  refine ⟨?_, ?_, ?_⟩ <;> decide

/-- C6 (amended): the normalization behaviour holds for the standalone
resolver `find_matching_benefit` of the service-type-mapper utility: if any
plan rule key agrees with the usage key up to normalization (lowercase,
spaces/hyphens to underscores, other specials stripped), its exact-match
step returns such a key.  The engine's own `_find_benefit_rule` performs
only literal comparisons (see the counterexample). -/
theorem C6_normalized_exact_match (u : String) (keys : List String)
    (h : ∃ k ∈ keys, normalize_benefit_key k = normalize_benefit_key u) :
    ∃ kk, find_matching_benefit u keys true = some kk ∧
      normalize_benefit_key kk = normalize_benefit_key u ∧ kk ∈ keys := by
  obtain ⟨k, hk, hnk⟩ := h
  have hex : ∃ x, x ∈ keys.reverse ∧
      (normalize_benefit_key x == normalize_benefit_key u) = true :=
    ⟨k, List.mem_reverse.mpr hk, beq_iff_eq.mpr hnk⟩
  have hsome : (keys.reverse.find?
      (fun x => normalize_benefit_key x == normalize_benefit_key u)).isSome :=
    List.find?_isSome.mpr hex
  cases hfind : keys.reverse.find?
      (fun x => normalize_benefit_key x == normalize_benefit_key u) with
  | none => rw [hfind] at hsome; simp at hsome
  | some kk =>
    refine ⟨kk, ?_, ?_, ?_⟩
    · unfold find_matching_benefit
      rw [hfind]
    · have hp := List.find?_some hfind
      exact beq_iff_eq.mp hp
    · exact List.mem_reverse.mp (List.mem_of_find?_eq_some hfind)

/-- C6 amended-claim witness: a plan key differing only in case from the
usage key is matched by `find_matching_benefit`. -/
theorem C6_normalized_exact_match_witness :
    (∃ k ∈ ["PRIMARY CARE VISITS"],
      normalize_benefit_key k = normalize_benefit_key "primary_care_visits") ∧
    (∃ kk, find_matching_benefit "primary_care_visits" ["PRIMARY CARE VISITS"] true =
        some kk ∧
      normalize_benefit_key kk = normalize_benefit_key "primary_care_visits" ∧
      kk ∈ ["PRIMARY CARE VISITS"]) :=
  ⟨by decide,
    C6_normalized_exact_match "primary_care_visits" ["PRIMARY CARE VISITS"] (by decide)⟩

/-! ## C10: monthly quantities are annualized -/

/-- C10: for a usage key ending in `_monthly` with positive quantity `q` and
a positive market price found under the transformed cost key, the service
loop applies the resolved benefit rule to the effective quantity `q * 12`
(the monthly count annualized), producing exactly that cost and state. -/
theorem C10_monthly_times_twelve (standard_costs : List (String × ℚ))
    (benefit_rules : List (String × BenefitRule)) (st : CalcState)
    (k : String) (q m : ℚ) (rule : BenefitRule)
    (hk : endsWithStr k "_monthly" = true) (hq : 0 < q)
    (hm : List.lookup (replaceAll k "_monthly" "_cost") standard_costs = some m)
    (hm0 : 0 < m) (hr : find_benefit_rule k benefit_rules = some rule) :
    process_service standard_costs benefit_rules st (k, q) =
      (some (k, (apply_benefit_rule (some rule) m (q * 12) st).1),
       (apply_benefit_rule (some rule) m (q * 12) st).2) := by
  have hq' : ¬ q ≤ 0 := not_le.mpr hq
  have hm' : ¬ m ≤ 0 := not_le.mpr hm0
  simp only [process_service, usage_cost_key, rstripS_monthly k hk, hk, hq', hm,
    Option.getD_some, hm', hr, if_true, if_false, ite_true, ite_false]

/-- C10 witness: one prescription per month of a 50-dollar drug under a
10-dollar copay rule costs 120 = 10 * (1 * 12), not 10. -/
theorem C10_monthly_times_twelve_witness :
    endsWithStr "tier_2_monthly" "_monthly" = true ∧ (0 : ℚ) < 1 ∧
    List.lookup (replaceAll "tier_2_monthly" "_monthly" "_cost")
      [("tier_2_cost", (50 : ℚ))] = some 50 ∧ (0 : ℚ) < 50 ∧
    find_benefit_rule "tier_2_monthly" [("tier_2_monthly", BenefitRule.mk "copay" 10)] =
      some (BenefitRule.mk "copay" 10) ∧
    process_service [("tier_2_cost", (50 : ℚ))]
        [("tier_2_monthly", BenefitRule.mk "copay" 10)] ⟨0, 0⟩ ("tier_2_monthly", 1) =
      (some ("tier_2_monthly",
        (apply_benefit_rule (some (BenefitRule.mk "copay" 10)) 50 (1 * 12) ⟨0, 0⟩).1),
       (apply_benefit_rule (some (BenefitRule.mk "copay" 10)) 50 (1 * 12) ⟨0, 0⟩).2) :=
  ⟨by decide, by norm_num, by decide, by norm_num, by decide,
    C10_monthly_times_twelve [("tier_2_cost", 50)]
      [("tier_2_monthly", BenefitRule.mk "copay" 10)] ⟨0, 0⟩ "tier_2_monthly" 1 50
      (BenefitRule.mk "copay" 10) (by decide) (by norm_num) (by decide) (by norm_num)
      (by decide)⟩

/-! ## C3: deductible state invariant -/

/-- One `apply_benefit_rule` call preserves the sum of remaining and paid
deductible, and (from a non-negative remaining deductible) keeps the
remaining deductible non-negative and non-increasing. -/
lemma apply_benefit_rule_state (benefit_rule : Option BenefitRule)
    (p q : ℚ) (st : CalcState) :
    (apply_benefit_rule benefit_rule p q st).2.deductible_remaining +
      (apply_benefit_rule benefit_rule p q st).2.deductible_paid =
      st.deductible_remaining + st.deductible_paid ∧
    (0 ≤ st.deductible_remaining →
      0 ≤ (apply_benefit_rule benefit_rule p q st).2.deductible_remaining ∧
      (apply_benefit_rule benefit_rule p q st).2.deductible_remaining ≤
        st.deductible_remaining) := by
  cases benefit_rule with
  | none => exact ⟨rfl, fun h => ⟨h, le_refl _⟩⟩
  | some rule =>
    simp only [apply_benefit_rule]
    split_ifs with h1 h2 h3 h4
    · exact ⟨rfl, fun h => ⟨h, le_refl _⟩⟩
    · exact ⟨rfl, fun h => ⟨h, le_refl _⟩⟩
    · push_neg at h1
      have htm : 0 < p * q := mul_pos h1.2 h1.1
      have hminle := min_le_right (p * q) st.deductible_remaining
      have hmin0 : 0 ≤ min (p * q) st.deductible_remaining :=
        le_min (le_of_lt htm) (le_of_lt h4)
      refine ⟨?_, fun h => ⟨?_, ?_⟩⟩
      · dsimp only
        ring
      · dsimp only
        linarith
      · dsimp only
        linarith
    · exact ⟨rfl, fun h => ⟨h, le_refl _⟩⟩
    · exact ⟨rfl, fun h => ⟨h, le_refl _⟩⟩

/-- One service-loop iteration preserves the sum of remaining and paid
deductible and keeps the remaining deductible non-negative and
non-increasing. -/
lemma process_service_state (standard_costs : List (String × ℚ))
    (benefit_rules : List (String × BenefitRule)) (st : CalcState)
    (e : String × ℚ) :
    (process_service standard_costs benefit_rules st e).2.deductible_remaining +
      (process_service standard_costs benefit_rules st e).2.deductible_paid =
      st.deductible_remaining + st.deductible_paid ∧
    (0 ≤ st.deductible_remaining →
      0 ≤ (process_service standard_costs benefit_rules st e).2.deductible_remaining ∧
      (process_service standard_costs benefit_rules st e).2.deductible_remaining ≤
        st.deductible_remaining) := by
  simp only [process_service]
  split_ifs <;>
    first
      | exact ⟨rfl, fun h => ⟨h, le_refl _⟩⟩
      | (cases hr : find_benefit_rule e.1 benefit_rules with
          | none => exact ⟨rfl, fun h => ⟨h, le_refl _⟩⟩
          | some rule =>
            dsimp only
            exact apply_benefit_rule_state (some rule) _ _ st)

/-- The whole service loop, from any state with non-negative remaining
deductible, preserves the remaining-plus-paid sum and keeps the remaining
deductible within `[0, initial remaining]`. -/
lemma calculate_usage_cost_state (standard_costs : List (String × ℚ))
    (benefit_rules : List (String × BenefitRule)) :
    ∀ (l : List (String × ℚ)) (st : CalcState), 0 ≤ st.deductible_remaining →
    (calculate_usage_cost standard_costs benefit_rules st l).2.deductible_remaining +
      (calculate_usage_cost standard_costs benefit_rules st l).2.deductible_paid =
      st.deductible_remaining + st.deductible_paid ∧
    0 ≤ (calculate_usage_cost standard_costs benefit_rules st l).2.deductible_remaining ∧
    (calculate_usage_cost standard_costs benefit_rules st l).2.deductible_remaining ≤
      st.deductible_remaining := by
  intro l
  induction l with
  | nil => exact fun st h => ⟨by rfl, h, le_refl _⟩
  | cons e rest ih =>
    intro st h
    have hstep := process_service_state standard_costs benefit_rules st e
    have hrem := hstep.2 h
    have hrec := ih (process_service standard_costs benefit_rules st e).2 hrem.1
    have key : (calculate_usage_cost standard_costs benefit_rules st (e :: rest)).2
        = (calculate_usage_cost standard_costs benefit_rules
            (process_service standard_costs benefit_rules st e).2 rest).2 := rfl
    refine ⟨?_, ?_, ?_⟩
    · rw [key, hrec.1]
      exact hstep.1
    · rw [key]
      exact hrec.2.1
    · rw [key]
      exact le_trans hrec.2.2 hrem.2

/-- C3: at every point of the accumulation inside `calculate_total_cost`
(that is, after any prefix of the usage profile has been processed from the
reset state), `deductible_paid` stays within `[0, annual_deductible]`,
`deductible_remaining` equals `annual_deductible - deductible_paid`, and
both are non-negative. -/
theorem C3_deductible_invariant (user_needs : UserNeeds) (plan : PlanData)
    (hD : 0 ≤ plan.annual_deductible) (pre suf : List (String × ℚ))
    (hsplit : user_needs.usage_profile = pre ++ suf) :
    (calculate_usage_cost user_needs.standard_costs plan.benefit_rules
        ⟨plan.annual_deductible, 0⟩ pre).2.deductible_paid ≤ plan.annual_deductible ∧
    (calculate_usage_cost user_needs.standard_costs plan.benefit_rules
        ⟨plan.annual_deductible, 0⟩ pre).2.deductible_remaining =
      plan.annual_deductible -
        (calculate_usage_cost user_needs.standard_costs plan.benefit_rules
          ⟨plan.annual_deductible, 0⟩ pre).2.deductible_paid ∧
    0 ≤ (calculate_usage_cost user_needs.standard_costs plan.benefit_rules
        ⟨plan.annual_deductible, 0⟩ pre).2.deductible_paid ∧
    0 ≤ (calculate_usage_cost user_needs.standard_costs plan.benefit_rules
        ⟨plan.annual_deductible, 0⟩ pre).2.deductible_remaining := by
  have h := calculate_usage_cost_state user_needs.standard_costs plan.benefit_rules
    pre ⟨plan.annual_deductible, 0⟩ hD
  obtain ⟨hsum, hnn, hle⟩ := h
  dsimp only at hsum hnn hle
  refine ⟨by linarith, by linarith, by linarith, hnn⟩

/-- C3 witness: a single coinsurance service processed from a fresh state
with a 500 deductible satisfies the invariant. -/
theorem C3_deductible_invariant_witness :
    ((0 : ℚ) ≤ 500) ∧
    ([("primary_care_visits", (10 : ℚ))] : List (String × ℚ)) =
      [("primary_care_visits", (10 : ℚ))] ++ [] ∧
    ((calculate_usage_cost [("primary_care_visit", (200 : ℚ))]
        [("primary_care_visits", BenefitRule.mk "coinsurance" (1/5))]
        ⟨500, 0⟩ [("primary_care_visits", (10 : ℚ))]).2.deductible_paid ≤ 500 ∧
      (calculate_usage_cost [("primary_care_visit", (200 : ℚ))]
        [("primary_care_visits", BenefitRule.mk "coinsurance" (1/5))]
        ⟨500, 0⟩ [("primary_care_visits", (10 : ℚ))]).2.deductible_remaining =
        500 - (calculate_usage_cost [("primary_care_visit", (200 : ℚ))]
          [("primary_care_visits", BenefitRule.mk "coinsurance" (1/5))]
          ⟨500, 0⟩ [("primary_care_visits", (10 : ℚ))]).2.deductible_paid ∧
      0 ≤ (calculate_usage_cost [("primary_care_visit", (200 : ℚ))]
        [("primary_care_visits", BenefitRule.mk "coinsurance" (1/5))]
        ⟨500, 0⟩ [("primary_care_visits", (10 : ℚ))]).2.deductible_paid ∧
      0 ≤ (calculate_usage_cost [("primary_care_visit", (200 : ℚ))]
        [("primary_care_visits", BenefitRule.mk "coinsurance" (1/5))]
        ⟨500, 0⟩ [("primary_care_visits", (10 : ℚ))]).2.deductible_remaining) :=
  ⟨by norm_num, rfl,
    C3_deductible_invariant
      (UserNeeds.mk [("primary_care_visits", 10)] [("primary_care_visit", 200)])
      (PlanData.mk 100 500 (some 10000)
        [("primary_care_visits", BenefitRule.mk "coinsurance" (1/5))])
      (by norm_num) [("primary_care_visits", 10)] [] rfl⟩

/-! ## C4: result-field identities and rounding -/

/-- C4 counterexample: because each output field is rounded to 2 decimal
places separately, the returned fields themselves can violate
`total_annual_cost == premium_cost + medical_drug_spend`: with a bi-weekly
premium of 1/6500 (annual premium 0.004) and a single 0.004 copay charge,
the result has `total_annual_cost = 0.01` but
`premium_cost = medical_drug_spend = 0.00`. -/
theorem C4_rounding_counterexample :
    (calculate_total_cost
        (UserNeeds.mk [("primary_care_visits", 1)] [("primary_care_visit", 1)])
        (PlanData.mk (1/6500) 0 (some 1000)
          [("primary_care_visits", BenefitRule.mk "copay" (1/250))])).total_annual_cost ≠
      (calculate_total_cost
        (UserNeeds.mk [("primary_care_visits", 1)] [("primary_care_visit", 1)])
        (PlanData.mk (1/6500) 0 (some 1000)
          [("primary_care_visits", BenefitRule.mk "copay" (1/250))])).premium_cost +
      (calculate_total_cost
        (UserNeeds.mk [("primary_care_visits", 1)] [("primary_care_visit", 1)])
        (PlanData.mk (1/6500) 0 (some 1000)
          [("primary_care_visits", BenefitRule.mk "copay" (1/250))])).medical_drug_spend := by
  with_unfolding_all decide

/-- C4 (amended): the spec invariants hold exactly on the pre-rounding
values — the exact total is the exact premium plus the exact capped
variable cost, the exact capped variable cost is `min(raw, oop_max)` (raw
itself when no OOP maximum is present), and the exact raw variable cost is
the sum of the per-service costs — and every field of the returned
`CostResult` is the 2-decimal rounding of its exact value.  The equalities
between the already-rounded fields themselves can be off by one cent (see
the counterexample). -/
theorem C4_result_rounding (user_needs : UserNeeds) (plan : PlanData) :
    (calculate_total_cost user_needs plan).total_annual_cost =
      round2 (calculate_premium_cost plan +
        apply_oop_cap plan (((calculate_usage_cost user_needs.standard_costs
          plan.benefit_rules ⟨plan.annual_deductible, 0⟩
          user_needs.usage_profile).1.map Prod.snd).sum)) ∧
    (calculate_total_cost user_needs plan).premium_cost =
      round2 (calculate_premium_cost plan) ∧
    (calculate_total_cost user_needs plan).medical_drug_spend =
      round2 (apply_oop_cap plan (((calculate_usage_cost user_needs.standard_costs
        plan.benefit_rules ⟨plan.annual_deductible, 0⟩
        user_needs.usage_profile).1.map Prod.snd).sum)) ∧
    (calculate_total_cost user_needs plan).variable_cost_raw =
      round2 (((calculate_usage_cost user_needs.standard_costs
        plan.benefit_rules ⟨plan.annual_deductible, 0⟩
        user_needs.usage_profile).1.map Prod.snd).sum) ∧
    (calculate_total_cost user_needs plan).deductible_paid =
      round2 ((calculate_usage_cost user_needs.standard_costs
        plan.benefit_rules ⟨plan.annual_deductible, 0⟩
        user_needs.usage_profile).2.deductible_paid) ∧
    (calculate_total_cost user_needs plan).usage_breakdown =
      (calculate_usage_cost user_needs.standard_costs
        plan.benefit_rules ⟨plan.annual_deductible, 0⟩
        user_needs.usage_profile).1.map (fun b => (b.1, round2 b.2)) ∧
    apply_oop_cap plan (((calculate_usage_cost user_needs.standard_costs
        plan.benefit_rules ⟨plan.annual_deductible, 0⟩
        user_needs.usage_profile).1.map Prod.snd).sum) =
      Option.elim plan.oop_max
        (((calculate_usage_cost user_needs.standard_costs
          plan.benefit_rules ⟨plan.annual_deductible, 0⟩
          user_needs.usage_profile).1.map Prod.snd).sum)
        (fun m => min (((calculate_usage_cost user_needs.standard_costs
          plan.benefit_rules ⟨plan.annual_deductible, 0⟩
          user_needs.usage_profile).1.map Prod.snd).sum) m) := by
  refine ⟨rfl, rfl, rfl, rfl, rfl, rfl, ?_⟩
  unfold apply_oop_cap
  cases plan.oop_max with
  | none => rfl
  | some m =>
    dsimp only [Option.elim]
    rcases le_or_lt (((calculate_usage_cost user_needs.standard_costs
        plan.benefit_rules ⟨plan.annual_deductible, 0⟩
        user_needs.usage_profile).1.map Prod.snd).sum) m with hle | hlt
    · rw [if_neg (not_lt.mpr hle), min_eq_left hle]
    · rw [if_pos hlt, min_eq_right (le_of_lt hlt)]

/-! ## C5: order (in)variance of the raw variable cost

Analysis of the service loop: each service either contributes a fixed,
state-independent cost (copay, unknown type, unresolved, or skipped) or
pushes a positive coinsurance market amount through the shared deductible.
These classifiers mirror the branch structure of `process_service`. -/

/-- The coinsurance market total this service pushes through the deductible
(`market_cost * quantity`), or `none` when the service is skipped,
unresolved, a copay, or of unknown type. -/
def service_coins_market (standard_costs : List (String × ℚ))
    (benefit_rules : List (String × BenefitRule)) (e : String × ℚ) : Option ℚ :=
  if e.2 ≤ 0 then none
  else
    let ck := usage_cost_key e.1
    let quantity := if ck.2 then e.2 * 12 else e.2
    let market_cost := (List.lookup ck.1 standard_costs).getD 0
    if market_cost ≤ 0 then none
    else
      match find_benefit_rule e.1 benefit_rules with
      | none => none
      | some rule =>
        if strLower rule.type = "copay" then none
        else if strLower rule.type = "coinsurance" then some (market_cost * quantity)
        else none

/-- The state-independent cost contributed by a non-coinsurance service
(zero except for copays). -/
def service_fixed_cost (standard_costs : List (String × ℚ))
    (benefit_rules : List (String × BenefitRule)) (e : String × ℚ) : ℚ :=
  if e.2 ≤ 0 then 0
  else
    let ck := usage_cost_key e.1
    let quantity := if ck.2 then e.2 * 12 else e.2
    let market_cost := (List.lookup ck.1 standard_costs).getD 0
    if market_cost ≤ 0 then 0
    else
      match find_benefit_rule e.1 benefit_rules with
      | none => 0
      | some rule =>
        if strLower rule.type = "copay" then rule.value * quantity else 0

/-- The cost carried by an optional usage-breakdown entry. -/
def entry_cost : Option (String × ℚ) → ℚ
  | none => 0
  | some b => b.2

/-- Folding the coinsurance deductible split (at a single rate `r`) over a
list of market amounts from a given remaining deductible. -/
def coins_run (r : ℚ) : List ℚ → ℚ → ℚ
  | [], _ => 0
  | m :: ms, d => (min m d + (m - min m d) * r) + coins_run r ms (d - min m d)

/-- A coinsurance market amount produced by the classifier is positive. -/
lemma service_coins_market_pos (standard_costs : List (String × ℚ))
    (benefit_rules : List (String × BenefitRule)) (e : String × ℚ) (m : ℚ)
    (h : service_coins_market standard_costs benefit_rules e = some m) : 0 < m := by
  simp only [service_coins_market] at h
  by_cases h1 : e.2 ≤ 0
  · rw [if_pos h1] at h; cases h
  · rw [if_neg h1] at h
    by_cases h2 : (List.lookup (usage_cost_key e.1).1 standard_costs).getD 0 ≤ 0
    · rw [if_pos h2] at h; cases h
    · rw [if_neg h2] at h
      cases hfr : find_benefit_rule e.1 benefit_rules with
      | none =>
        simp only [hfr] at h
        cases h
      | some rule =>
        simp only [hfr] at h
        by_cases hcp : strLower rule.type = "copay"
        · rw [if_pos hcp] at h; cases h
        · rw [if_neg hcp] at h
          by_cases hco : strLower rule.type = "coinsurance"
          · rw [if_pos hco] at h
            have hm := Option.some.inj h
            have hq : (0 : ℚ) < (if (usage_cost_key e.1).2 then e.2 * 12 else e.2) := by
              push_neg at h1
              split_ifs
              · linarith
              · linarith
            have hmc : (0 : ℚ) < (List.lookup (usage_cost_key e.1).1 standard_costs).getD 0 :=
              not_le.mp h2
            rw [← hm]
            exact mul_pos hmc hq
          · rw [if_neg hco] at h; cases h

/-- Summing a prepended optional breakdown entry. -/
lemma breakdown_sum_step (o : Option (String × ℚ)) (bs : List (String × ℚ)) :
    (((match o with
       | none => bs
       | some b => b :: bs) : List (String × ℚ)).map Prod.snd).sum =
      entry_cost o + (bs.map Prod.snd).sum := by
  cases o with
  | none => simp [entry_cost]
  | some b => simp [entry_cost]

/-- Classification of one service-loop step: when all coinsurance rules
resolve to the single rate `r` and the remaining deductible is
non-negative, the entry cost and the new remaining deductible are exactly
described by `service_fixed_cost` / `service_coins_market`. -/
lemma process_service_classify (standard_costs : List (String × ℚ))
    (benefit_rules : List (String × BenefitRule)) (st : CalcState)
    (e : String × ℚ) (r : ℚ)
    (hrem : 0 ≤ st.deductible_remaining)
    (huni : ∀ rule, find_benefit_rule e.1 benefit_rules = some rule →
        strLower rule.type = "coinsurance" → rule.value = r) :
    entry_cost (process_service standard_costs benefit_rules st e).1 =
      (match service_coins_market standard_costs benefit_rules e with
       | none => service_fixed_cost standard_costs benefit_rules e
       | some m => min m st.deductible_remaining +
           (m - min m st.deductible_remaining) * r) ∧
    (process_service standard_costs benefit_rules st e).2.deductible_remaining =
      (match service_coins_market standard_costs benefit_rules e with
       | none => st.deductible_remaining
       | some m => st.deductible_remaining - min m st.deductible_remaining) := by
  simp only [process_service, service_coins_market, service_fixed_cost]
  by_cases h1 : e.2 ≤ 0
  · simp only [if_pos h1, entry_cost]
    exact ⟨by trivial, by trivial⟩
  · simp only [if_neg h1]
    by_cases h2 : (List.lookup (usage_cost_key e.1).1 standard_costs).getD 0 ≤ 0
    · simp only [if_pos h2, entry_cost]
      exact ⟨by trivial, by trivial⟩
    · simp only [if_neg h2]
      cases hfr : find_benefit_rule e.1 benefit_rules with
      | none =>
        simp only [entry_cost]
        exact ⟨by trivial, by trivial⟩
      | some rule =>
        have hq : (0 : ℚ) < (if (usage_cost_key e.1).2 then e.2 * 12 else e.2) := by
          push_neg at h1
          split_ifs
          · linarith
          · linarith
        have hmc : (0 : ℚ) < (List.lookup (usage_cost_key e.1).1 standard_costs).getD 0 :=
          not_le.mp h2
        have hne : ¬ ((if (usage_cost_key e.1).2 then e.2 * 12 else e.2) ≤ 0 ∨
            (List.lookup (usage_cost_key e.1).1 standard_costs).getD 0 ≤ 0) := by
          push_neg
          exact ⟨hq, hmc⟩
        simp only [apply_benefit_rule, if_neg hne, entry_cost]
        by_cases hcp : strLower rule.type = "copay"
        · simp only [if_pos hcp]
          exact ⟨by trivial, by trivial⟩
        · simp only [if_neg hcp]
          by_cases hco : strLower rule.type = "coinsurance"
          · simp only [if_pos hco]
            have hval : rule.value = r := huni rule hfr hco
            by_cases hd : 0 < st.deductible_remaining
            · simp only [if_pos hd, hval]
              exact ⟨by trivial, by trivial⟩
            · have hd0 : st.deductible_remaining = 0 := le_antisymm (not_lt.mp hd) hrem
              simp only [if_neg hd, hval, hd0]
              have hmin : min ((List.lookup (usage_cost_key e.1).1 standard_costs).getD 0 *
                  (if (usage_cost_key e.1).2 then e.2 * 12 else e.2)) (0 : ℚ) = 0 :=
                min_eq_right (le_of_lt (mul_pos hmc hq))
              rw [hmin, if_neg (lt_irrefl (0 : ℚ))]
              constructor
              · dsimp only
                ring
              · dsimp only
                rw [hd0]
                ring
          · simp only [if_neg hco]
            exact ⟨by trivial, by trivial⟩

/-- A service classified as coinsurance contributes no fixed cost. -/
lemma service_fixed_cost_of_coins (standard_costs : List (String × ℚ))
    (benefit_rules : List (String × BenefitRule)) (e : String × ℚ) (m : ℚ)
    (h : service_coins_market standard_costs benefit_rules e = some m) :
    service_fixed_cost standard_costs benefit_rules e = 0 := by
  simp only [service_coins_market] at h
  simp only [service_fixed_cost]
  by_cases h1 : e.2 ≤ 0
  · rw [if_pos h1] at h; cases h
  · rw [if_neg h1] at h
    rw [if_neg h1]
    by_cases h2 : (List.lookup (usage_cost_key e.1).1 standard_costs).getD 0 ≤ 0
    · rw [if_pos h2] at h; cases h
    · rw [if_neg h2] at h
      rw [if_neg h2]
      cases hfr : find_benefit_rule e.1 benefit_rules with
      | none =>
        simp only [hfr] at h
        cases h
      | some rule =>
        simp only [hfr] at h
        simp only
        by_cases hcp : strLower rule.type = "copay"
        · rw [if_pos hcp] at h; cases h
        · rw [if_neg hcp]

/-- Decomposition of the raw variable cost: under a single coinsurance rate
`r`, the summed usage breakdown equals the state-independent fixed costs
plus the deductible fold over the coinsurance market amounts, in list
order. -/
lemma calculate_usage_cost_decomp (standard_costs : List (String × ℚ))
    (benefit_rules : List (String × BenefitRule)) (r : ℚ) :
    ∀ (l : List (String × ℚ)) (st : CalcState), 0 ≤ st.deductible_remaining →
    (∀ (k : String) (rule : BenefitRule),
        find_benefit_rule k benefit_rules = some rule →
        strLower rule.type = "coinsurance" → rule.value = r) →
    ((calculate_usage_cost standard_costs benefit_rules st l).1.map Prod.snd).sum =
      (l.map (service_fixed_cost standard_costs benefit_rules)).sum +
      coins_run r (l.filterMap (service_coins_market standard_costs benefit_rules))
        st.deductible_remaining := by
  intro l
  induction l with
  | nil =>
    intro st h huni
    simp [calculate_usage_cost, coins_run]
  | cons e rest ih =>
    intro st h huni
    have hstep := process_service_state standard_costs benefit_rules st e
    have hrem := (hstep.2 h).1
    have hclass := process_service_classify standard_costs benefit_rules st e r h
      (fun rule hf => huni e.1 rule hf)
    have key1 : (calculate_usage_cost standard_costs benefit_rules st (e :: rest)).1
        = (match (process_service standard_costs benefit_rules st e).1 with
           | none => (calculate_usage_cost standard_costs benefit_rules
               (process_service standard_costs benefit_rules st e).2 rest).1
           | some b => b :: (calculate_usage_cost standard_costs benefit_rules
               (process_service standard_costs benefit_rules st e).2 rest).1) := rfl
    rw [key1, breakdown_sum_step, ih (process_service standard_costs benefit_rules st e).2
      hrem huni]
    rw [List.map_cons, List.sum_cons, List.filterMap_cons]
    cases hm : service_coins_market standard_costs benefit_rules e with
    | none =>
      rw [hm] at hclass
      rw [hclass.1, hclass.2]
      ring
    | some m =>
      rw [hm] at hclass
      rw [hclass.1, hclass.2, service_fixed_cost_of_coins standard_costs benefit_rules e m hm]
      show _ = _ + coins_run r (m :: _) st.deductible_remaining
      rw [coins_run]
      ring

/-- Splitting a deductible `d` greedily over `m` and then `S` consumes
exactly `min (m + S) d` in total. -/
lemma min_split (m S d : ℚ) (hm : 0 < m) (hS : 0 ≤ S) (hd : 0 ≤ d) :
    min m d + min S (d - min m d) = min (m + S) d := by
  rcases le_total m d with h | h
  · rw [min_eq_left h]
    rcases le_total S (d - m) with h2 | h2
    · rw [min_eq_left h2, min_eq_left (by linarith : m + S ≤ d)]
    · rw [min_eq_right h2, min_eq_right (by linarith : d ≤ m + S)]
      ring
  · rw [min_eq_right h, sub_self, min_eq_right hS,
      min_eq_right (by linarith : d ≤ m + S)]
    ring

/-- Closed form of the deductible fold: over positive market amounts with
total `M` and a non-negative deductible `d`, the member pays
`min M d + (M - min M d) * r` in total, independent of the order of the
amounts. -/
lemma coins_run_closed (r : ℚ) :
    ∀ (ms : List ℚ) (d : ℚ), (∀ m ∈ ms, 0 < m) → 0 ≤ d →
    coins_run r ms d = min ms.sum d + (ms.sum - min ms.sum d) * r := by
  intro ms
  induction ms with
  | nil =>
    intro d _ hd
    simp only [coins_run, List.sum_nil]
    rw [min_eq_left hd]
    ring
  | cons m ms ih =>
    intro d hpos hd
    have hm : 0 < m := hpos m (List.mem_cons_self m ms)
    have hS : 0 ≤ ms.sum :=
      List.sum_nonneg (fun x hx => le_of_lt (hpos x (List.mem_cons_of_mem m hx)))
    have hd2 : 0 ≤ d - min m d := by
      have := min_le_right m d
      linarith
    rw [coins_run, ih (d - min m d) (fun x hx => hpos x (List.mem_cons_of_mem m hx)) hd2,
      List.sum_cons]
    have key := min_split m ms.sum d hm hS hd
    linear_combination (1 - r) * key

/-- Every rule returned by `_find_benefit_rule` is a value of the plan's
rule table. -/
lemma find_benefit_rule_mem (k : String) (rules : List (String × BenefitRule))
    (rule : BenefitRule) (h : find_benefit_rule k rules = some rule) :
    ∃ a, (a, rule) ∈ rules := by
  simp only [find_benefit_rule] at h
  cases h1 : List.lookup k rules with
  | some r1 =>
    simp only [h1] at h
    cases h
    exact ⟨k, lookup_mem h1⟩
  | none =>
    simp only [h1] at h
    cases h2 : List.lookup (replaceAll k "_visits" "") rules with
    | some r2 =>
      simp only [h2] at h
      cases h
      exact ⟨_, lookup_mem h2⟩
    | none =>
      simp only [h2] at h
      cases h3 : (List.lookup k therapy_fallbacks).bind
          (fun fbs => fbs.findSome? (fun fk => List.lookup fk rules)) with
      | some r3 =>
        simp only [h3] at h
        cases h
        obtain ⟨fbs, hfbs, hfs⟩ := Option.bind_eq_some.mp h3
        obtain ⟨fk, hfk, hlk⟩ := List.exists_of_findSome?_eq_some hfs
        exact ⟨fk, lookup_mem hlk⟩
      | none =>
        simp only [h3] at h
        cases h4 : (if containsStr k "_generics" then
            List.lookup "generic_drug" rules else none) with
        | some r4 =>
          simp only [h4] at h
          cases h
          by_cases hc : containsStr k "_generics"
          · rw [if_pos hc] at h4
            exact ⟨_, lookup_mem h4⟩
          · rw [if_neg hc] at h4
            cases h4
        | none =>
          simp only [h4] at h
          by_cases hc : containsStr k "_specialty"
          · rw [if_pos hc] at h
            exact ⟨_, lookup_mem h⟩
          · rw [if_neg hc] at h
            cases h

/-- C5 counterexample: two usage profiles with the same service/quantity
pairs in different orders, against the same prices and plan (deductible
100, coinsurance rates 10 percent and 50 percent), produce different raw
variable totals: 150 when the 10-percent service consumes the deductible
first, 110 the other way round. -/
theorem C5_counterexample :
    ([("a_visits", (1 : ℚ)), ("b_visits", (1 : ℚ))]).Perm
      [("b_visits", (1 : ℚ)), ("a_visits", (1 : ℚ))] ∧
    ((calculate_usage_cost [("a_visit", (100 : ℚ)), ("b_visit", (100 : ℚ))]
        [("a_visits", BenefitRule.mk "coinsurance" (1/10)),
         ("b_visits", BenefitRule.mk "coinsurance" (1/2))]
        ⟨100, 0⟩ [("a_visits", 1), ("b_visits", 1)]).1.map Prod.snd).sum ≠
    ((calculate_usage_cost [("a_visit", (100 : ℚ)), ("b_visit", (100 : ℚ))]
        [("a_visits", BenefitRule.mk "coinsurance" (1/10)),
         ("b_visits", BenefitRule.mk "coinsurance" (1/2))]
        ⟨100, 0⟩ [("b_visits", 1), ("a_visits", 1)]).1.map Prod.snd).sum := by
  constructor
  · exact List.Perm.swap _ _ _
  · with_unfolding_all decide

/-- C5 (amended): the raw variable cost is order-invariant for profiles
that are permutations of each other provided every coinsurance rule of the
plan's rule table carries one single rate `r`; with unequal coinsurance
rates the totals can differ (see the counterexample). -/
theorem C5_order_invariance_uniform_rate (standard_costs : List (String × ℚ))
    (benefit_rules : List (String × BenefitRule)) (l₁ l₂ : List (String × ℚ))
    (D r : ℚ) (hperm : l₁.Perm l₂) (hD : 0 ≤ D)
    (huni : ∀ p ∈ benefit_rules, strLower p.2.type = "coinsurance" → p.2.value = r) :
    ((calculate_usage_cost standard_costs benefit_rules ⟨D, 0⟩ l₁).1.map Prod.snd).sum =
    ((calculate_usage_cost standard_costs benefit_rules ⟨D, 0⟩ l₂).1.map Prod.snd).sum := by
  have huni' : ∀ (k : String) (rule : BenefitRule),
      find_benefit_rule k benefit_rules = some rule →
      strLower rule.type = "coinsurance" → rule.value = r := by
    intro k rule hf ht
    obtain ⟨a, ha⟩ := find_benefit_rule_mem k benefit_rules rule hf
    exact huni (a, rule) ha ht
  rw [calculate_usage_cost_decomp standard_costs benefit_rules r l₁ ⟨D, 0⟩ hD huni',
      calculate_usage_cost_decomp standard_costs benefit_rules r l₂ ⟨D, 0⟩ hD huni']
  have hfix : (l₁.map (service_fixed_cost standard_costs benefit_rules)).sum =
      (l₂.map (service_fixed_cost standard_costs benefit_rules)).sum :=
    (hperm.map _).sum_eq
  have hmk : (l₁.filterMap (service_coins_market standard_costs benefit_rules)).Perm
      (l₂.filterMap (service_coins_market standard_costs benefit_rules)) :=
    hperm.filterMap _
  have hpos₁ : ∀ m ∈ l₁.filterMap (service_coins_market standard_costs benefit_rules),
      0 < m := by
    intro m hm
    obtain ⟨e, _, heq⟩ := List.mem_filterMap.mp hm
    exact service_coins_market_pos standard_costs benefit_rules e m heq
  have hpos₂ : ∀ m ∈ l₂.filterMap (service_coins_market standard_costs benefit_rules),
      0 < m := by
    intro m hm
    obtain ⟨e, _, heq⟩ := List.mem_filterMap.mp hm
    exact service_coins_market_pos standard_costs benefit_rules e m heq
  rw [coins_run_closed r _ D hpos₁ hD, coins_run_closed r _ D hpos₂ hD,
      hfix, hmk.sum_eq]

/-- C5 amended-claim witness: swapping two services of a plan whose only
coinsurance rule has rate 1/5 leaves the raw total unchanged. -/
theorem C5_order_invariance_uniform_rate_witness :
    ([("a_visits", (2 : ℚ)), ("b_visits", (1 : ℚ))]).Perm
      [("b_visits", (1 : ℚ)), ("a_visits", (2 : ℚ))] ∧
    (0 : ℚ) ≤ 100 ∧
    (∀ p ∈ [("a_visits", BenefitRule.mk "coinsurance" (1/5)),
            ("b_visits", BenefitRule.mk "copay" 30)],
      strLower p.2.type = "coinsurance" → p.2.value = (1/5 : ℚ)) ∧
    ((calculate_usage_cost [("a_visit", (100 : ℚ)), ("b_visit", (50 : ℚ))]
        [("a_visits", BenefitRule.mk "coinsurance" (1/5)),
         ("b_visits", BenefitRule.mk "copay" 30)]
        ⟨100, 0⟩ [("a_visits", 2), ("b_visits", 1)]).1.map Prod.snd).sum =
    ((calculate_usage_cost [("a_visit", (100 : ℚ)), ("b_visit", (50 : ℚ))]
        [("a_visits", BenefitRule.mk "coinsurance" (1/5)),
         ("b_visits", BenefitRule.mk "copay" 30)]
        ⟨100, 0⟩ [("b_visits", 1), ("a_visits", 2)]).1.map Prod.snd).sum :=
  ⟨List.Perm.swap _ _ _, by norm_num, by with_unfolding_all decide,
    C5_order_invariance_uniform_rate
      [("a_visit", 100), ("b_visit", 50)]
      [("a_visits", BenefitRule.mk "coinsurance" (1/5)),
       ("b_visits", BenefitRule.mk "copay" 30)]
      [("a_visits", 2), ("b_visits", 1)] [("b_visits", 1), ("a_visits", 2)]
      100 (1/5) (List.Perm.swap _ _ _) (by norm_num)
      (by with_unfolding_all decide)⟩
